import Mathlib

/-!
Shallow embedding of `resume_parser.py` (class `ResumeParser`): the line-oriented
heuristic resume parser.  Pure Python string operations are translated to Lean
`String`/`List Char` functions; the regular expressions used by the source are
realised by a small backtracking matcher over explicit item lists, mirroring
CPython `re.search` left-to-right scanning with greedy, backtracking quantifiers.

Encoding note: the source file's bullet-marker string literal consists of the
three characters U+201A, U+00C4, U+00A2 (a mojibake rendering of U+2022 `•`);
the embedding reproduces those bytes exactly.
-/

/-! ## Data model (the `resume_data` dictionary shape from `ResumeParser.__init__`) -/

structure JobEntry where
  company : String
  position : String
  period : String
  description : List String
deriving Repr, DecidableEq

structure EducationEntry where
  institution : String
  degree : String
  period : String
  details : List String
deriving Repr, DecidableEq

structure Certification where
  provider : String
  certification : String
deriving Repr, DecidableEq

structure Award where
  organization : String
  award : String
deriving Repr, DecidableEq

/-- The `contact` sub-dictionary: fixed key set {email, phone, location, linkedin}
(§3 of the design and the renderer's reads); a key absent from the Python dict is
modelled as `none`. -/
structure Contact where
  email : Option String := none
  phone : Option String := none
  location : Option String := none
  linkedin : Option String := none
deriving Repr, DecidableEq

structure ResumeRecord where
  name : String := "Your Name"
  contact : Contact := {}
  summary : String := ""
  experience : List JobEntry := []
  education : List EducationEntry := []
  skills : List (String × List String) := []
  certifications : List Certification := []
  honors_awards : List Award := []
deriving Repr, DecidableEq

/-! ## Python string primitives

Implemented over `List Char` (via `String.data`/`String.mk`) with structural
recursion only, so that every definition evaluates under kernel reduction. -/

/-- Python truthiness of an optional string (`None` and `""` are falsy). -/
def pyTruthy : Option String → Bool
  | none => false
  | some s => !(s == "")

/-- Python `s.strip()`: remove leading and trailing whitespace. -/
def pyStrip (s : String) : String :=
  String.mk (((s.data.dropWhile Char.isWhitespace).reverse.dropWhile
    Char.isWhitespace).reverse)

/-- Python `s.upper()` (ASCII case mapping; the header literals are ASCII). -/
def pyUpper (s : String) : String := String.mk (s.data.map Char.toUpper)

/-- Python `s.lower()` (ASCII case mapping). -/
def pyLower (s : String) : String := String.mk (s.data.map Char.toLower)

/-- Python `s.startswith(pre)`. -/
def pyStartsWith (s pre : String) : Bool := pre.data.isPrefixOf s.data

/-- Python `s.endswith(suf)`. -/
def pyEndsWith (s suf : String) : Bool := suf.data.isSuffixOf s.data

/-- Python `s[1:]` (drop one character). -/
def pyDrop1 (s : String) : String := String.mk (s.data.drop 1)

/-- Python `s[:-1]` (drop the last character). -/
def pyDropLast1 (s : String) : String := String.mk s.data.dropLast

/-- Python `c in s` for a character. -/
def pyHasChar (s : String) (c : Char) : Bool := s.data.contains c

/-- Python `s.count(c)` for a character. -/
def pyCountChar (s : String) (c : Char) : Nat := s.data.count c

/-- Split a character list at every separator character, keeping empty fields
(the behaviour of Python `str.split(sep)` and of `re.split` on a single-char
alternation). -/
def splitChars (p : Char → Bool) : List Char → List (List Char)
  | [] => [[]]
  | c :: cs =>
    if p c then [] :: splitChars p cs
    else
      match splitChars p cs with
      | [] => [[c]]
      | f :: rest => (c :: f) :: rest

/-- Python `s.split('\n')`. -/
def pySplitLines (s : String) : List String :=
  (splitChars (· == '\n') s.data).map String.mk

/-- Python `'\n'.join(lines)`. -/
def pyJoinLines (lines : List String) : String :=
  String.mk (List.intercalate ['\n'] (lines.map String.data))

/-- Python `s.split()` (split on whitespace, dropping empty tokens). -/
def pyWords (s : String) : List String :=
  ((splitChars Char.isWhitespace s.data).map String.mk).filter (fun w => !(w == ""))

/-- Substring containment over character lists: Python `sub in s`. -/
def listContainsSub (sub : List Char) : List Char → Bool
  | [] => sub.isEmpty
  | c :: t => sub.isPrefixOf (c :: t) || listContainsSub sub t

/-- Python `sub in s` on strings. -/
def strContainsSub (s sub : String) : Bool :=
  listContainsSub sub.data s.data

/-! ## Regex engine

Patterns in the source use only character classes, literals and the quantifiers
`+`, `?`, `{n}`, `{n,}`.  An `RItem` is one class with repetition bounds; a
pattern is a `List RItem`.  `seqRests` returns the suffixes left over by every
way of matching the item sequence against a prefix of the input, in the order a
greedy backtracking engine (CPython `re`) explores them: the head of the result
is the match `re` reports. -/

structure RItem where
  cls : Char → Bool
  lo : Nat
  hi : Option Nat

/-- Length of the maximal prefix all of whose characters satisfy `cls`. -/
def classRun (cls : Char → Bool) : List Char → Nat
  | [] => 0
  | c :: cs => if cls c then classRun cls cs + 1 else 0

/-- Candidate repetition counts for one item against `s`, greedy-first. -/
def itemDrops (it : RItem) (s : List Char) : List Nat :=
  let run := classRun it.cls s
  let top := match it.hi with
    | none => run
    | some h => min h run
  (List.range (top + 1 - it.lo)).map (fun j => top - j)

/-- All leftover suffixes of matches of the item sequence at the start of `s`,
in backtracking preference order. -/
def seqRests : List RItem → List Char → List (List Char)
  | [], s => [s]
  | it :: its, s => (itemDrops it s).flatMap (fun n => seqRests its (s.drop n))

/-- Length of the (preferred) match of the pattern anchored at the start of `s`,
if any: what `re` reports when a scan position succeeds. -/
def matchAt (items : List RItem) (s : List Char) : Option Nat :=
  match seqRests items s with
  | [] => none
  | r :: _ => some (s.length - r.length)

/-- `re.search`: try successive start positions left to right; at the first
position where the pattern matches, return the matched characters (group 0). -/
def reSearchAux (items : List RItem) : List Char → Option (List Char)
  | [] =>
    match matchAt items [] with
    | some n => some (List.take n [])
    | none => none
  | c :: t =>
    match matchAt items (c :: t) with
    | some n => some (List.take n (c :: t))
    | none => reSearchAux items t

def reSearch (items : List RItem) (s : String) : Option String :=
  (reSearchAux items s.data).map String.mk

/-! ### The concrete patterns of the source -/

/-- `\w` (ASCII range; the inputs of interest are ASCII). -/
def isWordChar (c : Char) : Bool := c.isAlphanum || c == '_'

/-- `[\w\.-]` -/
def isDotWord (c : Char) : Bool := isWordChar c || c == '.' || c == '-'

/-- `[\s\.-]` -/
def isPhoneSep (c : Char) : Bool := c.isWhitespace || c == '.' || c == '-'

/-- `[A-Za-z\s]` -/
def isAlphaSpace (c : Char) : Bool := c.isAlpha || c.isWhitespace

/-- A single literal character. -/
def lit (c : Char) : RItem := ⟨(· == c), 1, some 1⟩

/-- `X+` -/
def plus1 (cls : Char → Bool) : RItem := ⟨cls, 1, none⟩

/-- `[\w\.-]+@[\w\.-]+\.\w+` (line 91 of the source). -/
def emailItems : List RItem :=
  [plus1 isDotWord, lit '@', plus1 isDotWord, lit '.', plus1 isWordChar]

/-- `\d{3}[\s\.-]?\d{3}[\s\.-]?\d{4}` (line 96). -/
def phoneItems : List RItem :=
  [⟨Char.isDigit, 3, some 3⟩, ⟨isPhoneSep, 0, some 1⟩,
   ⟨Char.isDigit, 3, some 3⟩, ⟨isPhoneSep, 0, some 1⟩,
   ⟨Char.isDigit, 4, some 4⟩]

/-- `[A-Za-z\s]+,\s+[A-Za-z\s]{2,}` (the body of the anchored location pattern,
line 105). -/
def locationItems : List RItem :=
  [plus1 isAlphaSpace, lit ',', plus1 Char.isWhitespace, ⟨isAlphaSpace, 2, none⟩]

/-- `\d\d/\d\d\d\d` (line 194). -/
def dateItems : List RItem :=
  [⟨Char.isDigit, 2, some 2⟩, lit '/', ⟨Char.isDigit, 4, some 4⟩]

/-- `re.search(r'^([A-Za-z\s]+,\s+[A-Za-z\s]{2,})$', line)` succeeds: with both
anchors this is exactly a full match of the body, and group 1 is the whole line. -/
def locFullMatch (line : String) : Bool :=
  (seqRests locationItems line.data).any List.isEmpty

/-- `re.search(r'\d\d/\d\d\d\d', line)` succeeds. -/
def hasMMYYYY (line : String) : Bool :=
  (reSearchAux dateItems line.data).isSome

/-! ## Contact extractor (`ResumeParser._extract_contact_info`) -/

/-- The location loop: `for line in top_lines`, strip, anchored search, `break`
on the first hit; group 1 is the entire stripped line. -/
def extractLocation : List String → Option String
  | [] => none
  | l :: rest =>
    let line := pyStrip l
    if locFullMatch line then some line else extractLocation rest

def extract_contact_info (top_lines : List String) : Contact :=
  let top_text := pyJoinLines top_lines
  { email := reSearch emailItems top_text
    phone := reSearch phoneItems top_text
    location := extractLocation top_lines
    linkedin := none }

/-! ## Experience sub-parser (`ResumeParser._parse_experience`) -/

/-- The bullet-marker string literal of the source, reproduced byte-exactly:
the three characters U+201A, U+00C4, U+00A2 (lines 187, 263, 318). -/
def bulletMarker : String := "‚Ä¢"

/-- Line 195 of the source:
`if date_match and 'present' in line.lower() or '-' in line and line.count('/') >= 2`.
Python operator precedence groups this as
`(date_match and present) or (hyphen and count >= 2)`. -/
def dateCond (line : String) : Bool :=
  (hasMMYYYY line && strContainsSub (pyLower line) "present")
  || (pyHasChar line '-' && decide (2 ≤ pyCountChar line '/'))

/-- The `while` loop of `_parse_experience`, with the four pieces of rolling
state (`company`, `position`, `period`, `description`); emitted entries are
produced in document order. -/
def parseExpLoop : List String → Option String → Option String → Option String →
    List String → List JobEntry
  | [], company, position, period, description =>
    if pyTruthy company then
      [⟨company.getD "", position.getD "", period.getD "", description⟩]
    else []
  | l :: rest, company, position, period, description =>
    let line := pyStrip l
    if line == "" then
      parseExpLoop rest company position period description
    else if pyStartsWith line bulletMarker then
      parseExpLoop rest company position period
        (description ++ [pyStrip (pyDrop1 line)])
    else if dateCond line then
      parseExpLoop rest company position (some line) description
    else if pyTruthy company && (!(line == "") && decide (2 < (pyWords (pyStrip line)).length)) then
      ⟨company.getD "", position.getD "", period.getD "", description⟩ ::
        parseExpLoop rest (some line) none none []
    else if !(pyTruthy company) then
      parseExpLoop rest (some line) position period description
    else if !(pyTruthy position) then
      parseExpLoop rest company (some line) period description
    else
      parseExpLoop rest company position period description

def parse_experience (content : String) : List JobEntry :=
  parseExpLoop (pySplitLines content) none none none []

/-! ## Education sub-parser (`ResumeParser._parse_education`) -/

def parse_education (content : String) : List EducationEntry :=
  if content == "" then [] else [⟨"Education", content, "", []⟩]

/-! ## Certifications sub-parser (`ResumeParser._parse_certifications`) -/

def parseCertLoop : List String → Option String → List Certification
  | [], _ => []
  | l :: rest, current_provider =>
    let line := pyStrip l
    if line == "" then
      parseCertLoop rest current_provider
    else if pyStartsWith line bulletMarker then
      let cert_name := pyStrip (pyDrop1 line)
      if pyTruthy current_provider then
        ⟨current_provider.getD "", cert_name⟩ :: parseCertLoop rest current_provider
      else
        parseCertLoop rest current_provider
    else
      parseCertLoop rest (some line)

def parse_certifications (content : String) : List Certification :=
  parseCertLoop (pySplitLines content) none

/-! ## Honors/awards sub-parser (`ResumeParser._parse_honors_awards`) -/

def parseAwardLoop : List String → Option String → List Award
  | [], _ => []
  | l :: rest, current_org =>
    let line := pyStrip l
    if line == "" then
      parseAwardLoop rest current_org
    else if pyStartsWith line bulletMarker then
      let award_name := pyStrip (pyDrop1 line)
      if pyTruthy current_org then
        ⟨current_org.getD "", award_name⟩ :: parseAwardLoop rest current_org
      else
        parseAwardLoop rest current_org
    else
      parseAwardLoop rest (some line)

def parse_honors_awards (content : String) : List Award :=
  parseAwardLoop (pySplitLines content) none

/-! ## Skills sub-parser (`ResumeParser._parse_skills`)

The `skills` dictionary is modelled as an insertion-ordered association list
with unique keys, the observable behaviour of a Python `dict`:
`dictAssign` is `d[k] = v` (overwrite in place, or append a new key at the
end), `dictLookup`/`dictContains` are `d[k]` / `k in d`.  `appendSkill` models
`skills[k].append(v)`, which raises `KeyError` (here: `none`) if `k` is absent. -/

def dictLookup (d : List (String × List String)) (k : String) : Option (List String) :=
  match d with
  | [] => none
  | (k', v) :: rest => if k' == k then some v else dictLookup rest k

def dictContains (d : List (String × List String)) (k : String) : Bool :=
  (dictLookup d k).isSome

def dictAssign (d : List (String × List String)) (k : String) (v : List String) :
    List (String × List String) :=
  match d with
  | [] => [(k, v)]
  | (k', v') :: rest => if k' == k then (k', v) :: rest else (k', v') :: dictAssign rest k v

def appendSkill (d : List (String × List String)) (k : String) (v : String) :
    Option (List (String × List String)) :=
  match d with
  | [] => none
  | (k', v') :: rest =>
    if k' == k then some ((k', v' ++ [v]) :: rest)
    else (appendSkill rest k v).map (fun r => (k', v') :: r)

/-- `for skill in re.split(r',|\|', line): skill = skill.strip(); if skill: append`. -/
def foldSkillTokens (d : List (String × List String)) (cat : String) :
    List String → Option (List (String × List String))
  | [] => some d
  | t :: ts =>
    let skill := pyStrip t
    if skill == "" then foldSkillTokens d cat ts
    else
      match appendSkill d cat skill with
      | none => none
      | some d' => foldSkillTokens d' cat ts

def parseSkillsLoop : List String → String → List (String × List String) →
    Option (List (String × List String))
  | [], _, skills => some skills
  | l :: rest, current_category, skills =>
    let line := pyStrip l
    if line == "" then
      parseSkillsLoop rest current_category skills
    else if pyEndsWith line ":" then
      let cat := pyStrip (pyDropLast1 line)
      parseSkillsLoop rest cat (dictAssign skills cat [])
    else
      let skills1 := if dictContains skills current_category then skills
                     else dictAssign skills current_category []
      match foldSkillTokens skills1 current_category
          ((splitChars (fun c => c == ',' || c == '|') line.data).map String.mk) with
      | none => none
      | some skills2 => parseSkillsLoop rest current_category skills2

def parse_skills (content : String) : Option (List (String × List String)) :=
  parseSkillsLoop (pySplitLines content) "General" []

/-! ## Section segmenter (`ResumeParser._extract_all_sections`) -/

def headerNames : List String :=
  ["SUMMARY", "EXPERIENCE", "EDUCATION", "CERTIFICATIONS", "SKILLS", "HONORS AND AWARDS"]

/-- Whether line `i` of `lines` is the header `h`: `line.strip().upper() == h`. -/
def lineIsHeader (lines : List String) (i : Nat) (h : String) : Bool :=
  pyUpper (pyStrip (lines.getD i "")) == h

/-- The scanning loop records `section_headers[header] = i` for every matching
line, so the retained value is the index of the LAST matching line. -/
def findHeaderAux (h : String) : List String → Nat → Option Nat
  | [], _ => none
  | l :: rest, i =>
    match findHeaderAux h rest (i + 1) with
    | some j => some j
    | none => if pyUpper (pyStrip l) == h then some i else none

def findHeaderPos (lines : List String) (h : String) : Option Nat :=
  findHeaderAux h lines 0

/-- Insertion sort by position, modelling `sorted(...)` on `(pos, header)`
pairs (positions are pairwise distinct: a line equals at most one header). -/
def insertByPos (x : Nat × String) : List (Nat × String) → List (Nat × String)
  | [] => [x]
  | y :: ys => if x.1 ≤ y.1 then x :: y :: ys else y :: insertByPos x ys

def sortByPos (l : List (Nat × String)) : List (Nat × String) :=
  l.foldr insertByPos []

/-- Walk the sorted header list; each section's span runs from the line after
its header to the next header (or end of file), dropping blank lines, joined
with newlines. -/
def spansFrom (lines : List String) : List (Nat × String) → List (String × String)
  | [] => []
  | (pos, h) :: rest =>
    let endPos := match rest with
      | [] => lines.length
      | (p2, _) :: _ => p2
    let sectionLines := ((lines.drop (pos + 1)).take (endPos - (pos + 1))).filter
      (fun l => !(pyStrip l == ""))
    (h, pyJoinLines sectionLines) :: spansFrom lines rest

def extract_all_sections (content : String) : List (String × String) :=
  let lines := pySplitLines content
  let found := headerNames.filterMap (fun h => (findHeaderPos lines h).map (fun p => (p, h)))
  spansFrom lines (sortByPos found)

/-- `header in sections` / `sections[header]`. -/
def sectionsLookup (sections : List (String × String)) (h : String) : Option String :=
  match sections with
  | [] => none
  | (k, v) :: rest => if k == h then some v else sectionsLookup rest h

/-! ## Assembling the record (`ResumeParser.parse` and the tail of
`_extract_all_sections`) -/

def applySummary (sections : List (String × String)) (r : ResumeRecord) : ResumeRecord :=
  match sectionsLookup sections "SUMMARY" with
  | some s => { r with summary := s }
  | none => r

def applyExperience (sections : List (String × String)) (r : ResumeRecord) : ResumeRecord :=
  match sectionsLookup sections "EXPERIENCE" with
  | some s => { r with experience := parse_experience s }
  | none => r

def applyEducation (sections : List (String × String)) (r : ResumeRecord) : ResumeRecord :=
  match sectionsLookup sections "EDUCATION" with
  | some s => { r with education := parse_education s }
  | none => r

def applyCertifications (sections : List (String × String)) (r : ResumeRecord) : ResumeRecord :=
  match sectionsLookup sections "CERTIFICATIONS" with
  | some s => { r with certifications := parse_certifications s }
  | none => r

def applyAwards (sections : List (String × String)) (r : ResumeRecord) : ResumeRecord :=
  match sectionsLookup sections "HONORS AND AWARDS" with
  | some s => { r with honors_awards := parse_honors_awards s }
  | none => r

/-- `skills[...]` access can in principle fail (`KeyError`), so this step is
`Option`-valued; sections are applied in the order of the source. -/
def applySections (sections : List (String × String)) (r : ResumeRecord) :
    Option ResumeRecord :=
  let r1 := applyCertifications sections
    (applyEducation sections (applyExperience sections (applySummary sections r)))
  match sectionsLookup sections "SKILLS" with
  | some s =>
    match parse_skills s with
    | some sk => some (applyAwards sections { r1 with skills := sk })
    | none => none
  | none => some (applyAwards sections r1)

/-- Lines 71-74 of the source: the record's name is line 1 stripped when that
line is non-blank, else the placeholder default. -/
def parseName (lines : List String) : String :=
  match lines with
  | [] => "Your Name"
  | l0 :: _ => if pyStrip l0 == "" then "Your Name" else pyStrip l0

/-- `ResumeParser.parse`: name from line 1, contact from the first 10 lines,
then the section pipeline.  `none` would model a content-level exception. -/
def parse (content : String) : Option ResumeRecord :=
  let lines := pySplitLines content
  let r2 : ResumeRecord :=
    { name := parseName lines, contact := extract_contact_info (lines.take 10) }
  applySections (extract_all_sections content) r2

/-! ## Helper lemmas -/

theorem startsWith_bullet_ne_empty (s : String) :
    pyStartsWith s bulletMarker = true → (s == "") = false := by
  intro h
  cases heq : s == ""
  · rfl
  · have : s = "" := by
      have := (beq_iff_eq (a := s) (b := "")).mp heq
      exact this
    subst this
    revert h
    decide

/-- A bullet line of the Experience loop appends the trimmed remainder
(after dropping a single character) to `description` and changes nothing else. -/
theorem parseExpLoop_bullet (l : String) (rest : List String)
    (company position period : Option String) (description : List String)
    (h : pyStartsWith (pyStrip l) bulletMarker = true) :
    parseExpLoop (l :: rest) company position period description =
      parseExpLoop rest company position period
        (description ++ [pyStrip (pyDrop1 (pyStrip l))]) := by
  have hne : (pyStrip l == "") = false := startsWith_bullet_ne_empty _ h
  conv_lhs => rw [parseExpLoop]
  simp only [hne, h, Bool.false_eq_true, if_false, if_true]

/-- A non-blank, non-bullet line satisfying the date condition sets `period`
to the full (stripped) line and touches nothing else. -/
theorem parseExpLoop_date (l : String) (rest : List String)
    (company position period : Option String) (description : List String)
    (hne : (pyStrip l == "") = false)
    (hnb : pyStartsWith (pyStrip l) bulletMarker = false)
    (hd : dateCond (pyStrip l) = true) :
    parseExpLoop (l :: rest) company position period description =
      parseExpLoop rest company position (some (pyStrip l)) description := by
  conv_lhs => rw [parseExpLoop]
  simp only [hne, hnb, hd, Bool.false_eq_true, if_false, if_true]

/-- Every certification emitted by the loop carries a non-empty provider: the
emission is guarded by Python truthiness of `current_provider`. -/
theorem parseCertLoop_provider_ne (ls : List String) :
    ∀ cp c, c ∈ parseCertLoop ls cp → ¬c.provider = "" := by
  induction ls with
  | nil =>
    intro cp c hc
    simp [parseCertLoop] at hc
  | cons l rest ih =>
    intro cp c hc
    simp only [parseCertLoop] at hc
    by_cases h1 : (pyStrip l == "") = true
    · rw [if_pos h1] at hc
      exact ih cp c hc
    · rw [if_neg h1] at hc
      by_cases h2 : pyStartsWith (pyStrip l) bulletMarker = true
      · rw [if_pos h2] at hc
        by_cases h3 : pyTruthy cp = true
        · rw [if_pos h3] at hc
          rcases List.mem_cons.mp hc with hceq | hmem
          · subst hceq
            cases cp with
            | none => simp [pyTruthy] at h3
            | some s =>
              simp only [pyTruthy, Bool.not_eq_true'] at h3
              simp only [Option.getD_some]
              intro habs
              rw [habs] at h3
              simp at h3
          · exact ih cp c hmem
        · rw [if_neg h3] at hc
          exact ih cp c hc
      · rw [if_neg h2] at hc
        exact ih (some (pyStrip l)) c hc

/-- Every award emitted by the loop carries a non-empty organization. -/
theorem parseAwardLoop_org_ne (ls : List String) :
    ∀ co a, a ∈ parseAwardLoop ls co → ¬a.organization = "" := by
  induction ls with
  | nil =>
    intro co a ha
    simp [parseAwardLoop] at ha
  | cons l rest ih =>
    intro co a ha
    simp only [parseAwardLoop] at ha
    by_cases h1 : (pyStrip l == "") = true
    · rw [if_pos h1] at ha
      exact ih co a ha
    · rw [if_neg h1] at ha
      by_cases h2 : pyStartsWith (pyStrip l) bulletMarker = true
      · rw [if_pos h2] at ha
        by_cases h3 : pyTruthy co = true
        · rw [if_pos h3] at ha
          rcases List.mem_cons.mp ha with haeq | hmem
          · subst haeq
            cases co with
            | none => simp [pyTruthy] at h3
            | some s =>
              simp only [pyTruthy, Bool.not_eq_true'] at h3
              simp only [Option.getD_some]
              intro habs
              rw [habs] at h3
              simp at h3
          · exact ih co a hmem
        · rw [if_neg h3] at ha
          exact ih co a ha
      · rw [if_neg h2] at ha
        exact ih (some (pyStrip l)) a ha

theorem dictLookup_dictAssign (d : List (String × List String)) (c k : String)
    (v : List String) :
    dictLookup (dictAssign d c v) k = if c == k then some v else dictLookup d k := by
  induction d with
  | nil => simp [dictAssign, dictLookup]
  | cons p rest ih =>
    obtain ⟨k1, v1⟩ := p
    simp only [dictAssign]
    by_cases h1 : (k1 == c) = true
    · rw [if_pos h1]
      have h1e : k1 = c := by simpa [beq_iff_eq] using h1
      subst h1e
      simp only [dictLookup]
      by_cases h2 : (k1 == k) = true
      · simp [h2]
      · have h2f : (k1 == k) = false := by simpa using h2
        simp [dictLookup, h2f]
    · rw [if_neg h1]
      have h1e : ¬k1 = c := by simpa [beq_iff_eq] using h1
      simp only [dictLookup, ih]
      by_cases h2 : (k1 == k) = true
      · have h2e : k1 = k := by simpa [beq_iff_eq] using h2
        have hck : (c == k) = false := by
          simp only [beq_eq_false_iff_ne, ne_eq]
          intro hh
          exact h1e (h2e.trans hh.symm)
        simp [h2, hck]
      · have h2f : (k1 == k) = false := by simpa using h2
        simp [h2f]

theorem appendSkill_lookup (d : List (String × List String)) (c v : String) :
    ∀ d2, appendSkill d c v = some d2 →
    ∀ k, dictLookup d2 k =
      if c == k then (dictLookup d k).map (fun w => w ++ [v]) else dictLookup d k := by
  induction d with
  | nil => intro d2 h; simp [appendSkill] at h
  | cons p rest ih =>
    obtain ⟨k1, v1⟩ := p
    intro d2 h k
    simp only [appendSkill] at h
    by_cases h1 : k1 = c
    · subst h1
      simp only [beq_self_eq_true, if_true] at h
      cases h
      by_cases h2 : k1 = k <;> simp_all [dictLookup, beq_iff_eq]
    · rw [if_neg (by simpa [beq_iff_eq] using h1)] at h
      cases hr : appendSkill rest c v with
      | none => rw [hr] at h; simp at h
      | some r2 =>
        rw [hr] at h
        simp only [Option.map_some'] at h
        cases h
        simp only [dictLookup]
        rw [ih r2 hr k]
        by_cases h2 : (k1 == k) = true
        · have h2e : k1 = k := by simpa [beq_iff_eq] using h2
          have hck : (c == k) = false := by
            simp only [beq_eq_false_iff_ne, ne_eq]
            intro hh
            exact h1 (h2e.trans hh.symm)
          simp [h2, hck]
        · have h2f : (k1 == k) = false := by simpa using h2
          simp [h2f]

theorem appendSkill_isSome (d : List (String × List String)) (c v : String)
    (h : dictContains d c = true) : (appendSkill d c v).isSome = true := by
  induction d with
  | nil => simp [dictContains, dictLookup] at h
  | cons p rest ih =>
    obtain ⟨k1, v1⟩ := p
    simp only [dictContains, dictLookup] at h
    simp only [appendSkill]
    by_cases h1 : k1 = c
    · simp [beq_iff_eq, h1]
    · rw [if_neg (by simpa [beq_iff_eq] using h1)]
      rw [if_neg (by simpa [beq_iff_eq] using h1)] at h
      have := ih h
      cases hr : appendSkill rest c v with
      | none => rw [hr] at this; simp at this
      | some r2 => simp

theorem foldSkillTokens_isSome (c : String) (ts : List String) :
    ∀ d, dictContains d c = true → (foldSkillTokens d c ts).isSome = true := by
  induction ts with
  | nil => intro d _; simp [foldSkillTokens]
  | cons t rest ih =>
    intro d hd
    simp only [foldSkillTokens]
    by_cases h1 : (pyStrip t == "") = true
    · rw [if_pos h1]; exact ih d hd
    · rw [if_neg h1]
      cases ha : appendSkill d c (pyStrip t) with
      | none =>
        have := appendSkill_isSome d c (pyStrip t) hd
        rw [ha] at this; simp at this
      | some d1 =>
        have hl := appendSkill_lookup d c (pyStrip t) d1 ha c
        simp only [beq_self_eq_true, if_true] at hl
        have hd1 : dictContains d1 c = true := by
          simp only [dictContains, hl]
          simp only [dictContains] at hd
          cases hx : dictLookup d c with
          | none => rw [hx] at hd; simp at hd
          | some w => simp
        exact ih d1 hd1

theorem foldSkillTokens_extend (c : String) (ts : List String) :
    ∀ d d2 k w, foldSkillTokens d c ts = some d2 → dictLookup d k = some w →
    ∃ ext, dictLookup d2 k = some (w ++ ext) := by
  induction ts with
  | nil =>
    intro d d2 k w h hw
    simp only [foldSkillTokens] at h
    cases h
    exact ⟨[], by simpa using hw⟩
  | cons t rest ih =>
    intro d d2 k w h hw
    simp only [foldSkillTokens] at h
    by_cases h1 : (pyStrip t == "") = true
    · rw [if_pos h1] at h
      exact ih d d2 k w h hw
    · rw [if_neg h1] at h
      cases ha : appendSkill d c (pyStrip t) with
      | none => rw [ha] at h; simp at h
      | some d1 =>
        rw [ha] at h
        have hl := appendSkill_lookup d c (pyStrip t) d1 ha k
        by_cases h2 : (c == k) = true
        · rw [if_pos h2, hw] at hl
          simp only [Option.map_some'] at hl
          obtain ⟨ext, hext⟩ := ih d1 d2 k (w ++ [pyStrip t]) h hl
          exact ⟨[pyStrip t] ++ ext, by simpa [List.append_assoc] using hext⟩
        · rw [if_neg h2, hw] at hl
          exact ih d1 d2 k w h hl

theorem parseSkillsLoop_isSome (ls : List String) :
    ∀ cat skills, (parseSkillsLoop ls cat skills).isSome = true := by
  induction ls with
  | nil => intro cat skills; simp [parseSkillsLoop]
  | cons l rest ih =>
    intro cat skills
    simp only [parseSkillsLoop]
    by_cases h1 : (pyStrip l == "") = true
    · rw [if_pos h1]; exact ih cat skills
    · rw [if_neg h1]
      by_cases h2 : pyEndsWith (pyStrip l) ":" = true
      · rw [if_pos h2]; exact ih _ _
      · rw [if_neg h2]
        have hcont : dictContains
            (if dictContains skills cat = true then skills
             else dictAssign skills cat []) cat = true := by
          by_cases hc : dictContains skills cat = true
          · rw [if_pos hc]; exact hc
          · rw [if_neg hc]
            simp [dictContains, dictLookup_dictAssign]
        have := foldSkillTokens_isSome cat
          ((splitChars (fun c => c == ',' || c == '|') (pyStrip l).data).map String.mk)
          _ hcont
        cases hf : foldSkillTokens
            (if dictContains skills cat = true then skills
             else dictAssign skills cat []) cat
            ((splitChars (fun c => c == ',' || c == '|') (pyStrip l).data).map String.mk) with
        | none => rw [hf] at this; simp at this
        | some d2 =>
          exact ih cat d2

/-- Between category-header lines the skill buckets only grow: if no line of
the span is a header line, every bucket present at entry is still present at
exit with its original contents as a prefix. -/
theorem parseSkillsLoop_extend (ls : List String) :
    ∀ cat skills d2 k w,
    (∀ l ∈ ls, pyEndsWith (pyStrip l) ":" = false) →
    parseSkillsLoop ls cat skills = some d2 →
    dictLookup skills k = some w →
    ∃ ext, dictLookup d2 k = some (w ++ ext) := by
  induction ls with
  | nil =>
    intro cat skills d2 k w _ h hw
    simp only [parseSkillsLoop] at h
    cases h
    exact ⟨[], by simpa using hw⟩
  | cons l rest ih =>
    intro cat skills d2 k w hnh h hw
    simp only [parseSkillsLoop] at h
    by_cases h1 : (pyStrip l == "") = true
    · rw [if_pos h1] at h
      exact ih cat skills d2 k w (fun x hx => hnh x (List.mem_cons_of_mem l hx)) h hw
    · rw [if_neg h1] at h
      have h2 : pyEndsWith (pyStrip l) ":" = false := hnh l (List.mem_cons_self l rest)
      rw [if_neg (by simp [h2])] at h
      set skills1 := if dictContains skills cat = true then skills
        else dictAssign skills cat [] with hs1
      have hw1 : dictLookup skills1 k = some w := by
        rw [hs1]
        by_cases hc : dictContains skills cat = true
        · rw [if_pos hc]; exact hw
        · rw [if_neg hc]
          rw [dictLookup_dictAssign]
          by_cases hck : (cat == k) = true
          · exfalso
            have : cat = k := by simpa [beq_iff_eq] using hck
            subst this
            simp [dictContains, hw] at hc
          · rw [if_neg hck]; exact hw
      cases hf : foldSkillTokens skills1 cat
          ((splitChars (fun c => c == ',' || c == '|') (pyStrip l).data).map String.mk) with
      | none => rw [hf] at h; simp at h
      | some d1 =>
        rw [hf] at h
        obtain ⟨e1, he1⟩ := foldSkillTokens_extend cat _ skills1 d1 k w hf hw1
        obtain ⟨e2, he2⟩ := ih cat d1 d2 k (w ++ e1)
          (fun x hx => hnh x (List.mem_cons_of_mem l hx)) h he1
        exact ⟨e1 ++ e2, by simpa [List.append_assoc] using he2⟩

theorem applySummary_contact (s : List (String × String)) (r : ResumeRecord) :
    (applySummary s r).contact = r.contact := by
  unfold applySummary
  cases sectionsLookup s "SUMMARY" <;> rfl

theorem applyExperience_contact (s : List (String × String)) (r : ResumeRecord) :
    (applyExperience s r).contact = r.contact := by
  unfold applyExperience
  cases sectionsLookup s "EXPERIENCE" <;> rfl

theorem applyEducation_contact (s : List (String × String)) (r : ResumeRecord) :
    (applyEducation s r).contact = r.contact := by
  unfold applyEducation
  cases sectionsLookup s "EDUCATION" <;> rfl

theorem applyCertifications_contact (s : List (String × String)) (r : ResumeRecord) :
    (applyCertifications s r).contact = r.contact := by
  unfold applyCertifications
  cases sectionsLookup s "CERTIFICATIONS" <;> rfl

theorem applyAwards_contact (s : List (String × String)) (r : ResumeRecord) :
    (applyAwards s r).contact = r.contact := by
  unfold applyAwards
  cases sectionsLookup s "HONORS AND AWARDS" <;> rfl

/-- The section-application pipeline never touches the contact mapping. -/
theorem applySections_contact (s : List (String × String)) (r r2 : ResumeRecord)
    (h : applySections s r = some r2) : r2.contact = r.contact := by
  unfold applySections at h
  cases hq : sectionsLookup s "SKILLS" with
  | none =>
    rw [hq] at h
    have h3 := Option.some.inj h
    subst h3
    simp [applyAwards_contact, applyCertifications_contact, applyEducation_contact,
      applyExperience_contact, applySummary_contact]
  | some str =>
    rw [hq] at h
    dsimp only [] at h
    cases hp : parse_skills str with
    | none =>
      rw [hp] at h
      simp at h
    | some sk =>
      rw [hp] at h
      have h3 := Option.some.inj h
      subst h3
      simp [applyAwards_contact, applyCertifications_contact, applyEducation_contact,
        applyExperience_contact, applySummary_contact]

/-- The pipeline always yields `some`: the only possible content-level failure,
the `skills[...]` access, is guarded in the source. -/
theorem applySections_isSome (s : List (String × String)) (r : ResumeRecord) :
    (applySections s r).isSome = true := by
  unfold applySections
  cases hq : sectionsLookup s "SKILLS" with
  | none => simp
  | some str =>
    dsimp only []
    have ht := parseSkillsLoop_isSome (pySplitLines str) "General" []
    cases hp : parse_skills str with
    | none =>
      unfold parse_skills at hp
      rw [hp] at ht
      simp at ht
    | some sk => simp

/-! ## Claims -/

/-- C1 counterexample: parsing the seven-line EXPERIENCE section of the claim
does NOT yield the two claimed JobEntry records.  The lines starting with `•`
(U+2022) are not recognized as bullets (the source's marker literal is the
three-character mojibake sequence), so they fall through to the more-than-two-words
new-company branch, and the two-word line "Beta Inc" never starts a new entry. -/
theorem C1_counterexample :
    parse_experience "Acme Corp\nSenior Engineer\n01/2020 - present\n• Built the thing\n• Shipped the other thing\nBeta Inc\nEngineer" ≠
      [⟨"Acme Corp", "Senior Engineer", "01/2020 - present",
        ["Built the thing", "Shipped the other thing"]⟩,
       ⟨"Beta Inc", "Engineer", "", []⟩] := by
  decide

/-- C1 (amended): on the seven lines of the claim the Experience sub-parser
yields three JobEntry records — ("Acme Corp","Senior Engineer","01/2020 - present",[]),
("• Built the thing","","",[]) and ("• Shipped the other thing","Beta Inc","",[]) —
because a line is a bullet only when it starts with the source's three-character
marker literal "‚Ä¢", not with `•`.  A line that does start with that marker has
`line[1:].strip()` (dropping a single character) appended to `description`, with
no other state change. -/
theorem C1_theorem :
    parse_experience "Acme Corp\nSenior Engineer\n01/2020 - present\n• Built the thing\n• Shipped the other thing\nBeta Inc\nEngineer" =
      [⟨"Acme Corp", "Senior Engineer", "01/2020 - present", []⟩,
       ⟨"• Built the thing", "", "", []⟩,
       ⟨"• Shipped the other thing", "Beta Inc", "", []⟩] ∧
    (∀ l rest company position period description,
      pyStartsWith (pyStrip l) bulletMarker = true →
      parseExpLoop (l :: rest) company position period description =
        parseExpLoop rest company position period
          (description ++ [pyStrip (pyDrop1 (pyStrip l))])) := by
  constructor
  · decide
  · intro l rest company position period description h
    exact parseExpLoop_bullet l rest company position period description h

/-- C1 witness: the bullet rule of `C1_theorem` applied to the concrete
bullet line "‚Ä¢ Led team". -/
theorem C1_witness :
    pyStartsWith (pyStrip "‚Ä¢ Led team") bulletMarker = true ∧
    parseExpLoop ["‚Ä¢ Led team"] (some "Acme") none none [] =
      parseExpLoop [] (some "Acme") none none
        ([] ++ [pyStrip (pyDrop1 (pyStrip "‚Ä¢ Led team"))]) :=
  ⟨by decide,
   C1_theorem.2 "‚Ä¢ Led team" [] (some "Acme") none none [] (by decide)⟩

/-- C2 counterexample: the line "n/a - n/a" contains no `MM/YYYY` substring,
yet the date-range branch is taken (it has a hyphen and two slashes): in the
two-line section "Acme\nn/a - n/a" the second line becomes `period`, not
`position`. -/
theorem C2_counterexample :
    hasMMYYYY "n/a - n/a" = false ∧
    parse_experience "Acme\nn/a - n/a" = [⟨"Acme", "", "n/a - n/a", []⟩] := by
  constructor <;> decide

/-- C2 (amended): by Python operator precedence the date-range test is
`(MM/YYYY substring AND case-insensitive substring "present") OR
(a hyphen AND at least two '/' characters)` — the MM/YYYY requirement does not
distribute over the second disjunct.  A non-blank, non-bullet line passing this
test sets `period` to the full line and touches nothing else. -/
theorem C2_theorem :
    (∀ line : String, dateCond line = true ↔
      ((hasMMYYYY line = true ∧ strContainsSub (pyLower line) "present" = true) ∨
       (pyHasChar line '-' = true ∧ 2 ≤ pyCountChar line '/'))) ∧
    (∀ l rest company position period description,
      (pyStrip l == "") = false →
      pyStartsWith (pyStrip l) bulletMarker = false →
      dateCond (pyStrip l) = true →
      parseExpLoop (l :: rest) company position period description =
        parseExpLoop rest company position (some (pyStrip l)) description) := by
  constructor
  · intro line
    simp [dateCond, Bool.or_eq_true, Bool.and_eq_true, decide_eq_true_iff]
  · intro l rest company position period description hne hnb hd
    exact parseExpLoop_date l rest company position period description hne hnb hd

/-- C2 witness: both parts of `C2_theorem` at the date line "01/2020 - present"
of a two-line section. -/
theorem C2_witness :
    (dateCond "01/2020 - present" = true ↔
      ((hasMMYYYY "01/2020 - present" = true ∧
        strContainsSub (pyLower "01/2020 - present") "present" = true) ∨
       (pyHasChar "01/2020 - present" '-' = true ∧
        2 ≤ pyCountChar "01/2020 - present" '/'))) ∧
    parseExpLoop ["01/2020 - present"] (some "Acme") none none [] =
      parseExpLoop [] (some "Acme") none (some (pyStrip "01/2020 - present")) [] :=
  ⟨C2_theorem.1 "01/2020 - present",
   C2_theorem.2 "01/2020 - present" [] (some "Acme") none none []
     (by decide) (by decide) (by decide)⟩

/-- C5: every Certification emitted from a CERTIFICATIONS section has a
non-empty provider, and every Award from an Honors/Awards section a non-empty
organization; a bullet line appearing before any provider (organization) line
is silently dropped, producing no record and no error. -/
theorem C5_theorem :
    (∀ content c, c ∈ parse_certifications content → ¬c.provider = "") ∧
    (∀ content a, a ∈ parse_honors_awards content → ¬a.organization = "") ∧
    parse_certifications "‚Ä¢ Orphan Cert" = [] ∧
    parse_honors_awards "‚Ä¢ Orphan Award" = [] := by
  refine ⟨fun content c hc => ?_, fun content a ha => ?_, by decide, by decide⟩
  · exact parseCertLoop_provider_ne _ none c hc
  · exact parseAwardLoop_org_ne _ none a ha

/-- C5 witness: the provider invariant applied to the concrete certification
emitted by the section "Acme Institute\n‚Ä¢ Real Cert". -/
theorem C5_witness :
    (Certification.mk "Acme Institute" "Ä¢ Real Cert") ∈
      parse_certifications "Acme Institute\n‚Ä¢ Real Cert" ∧
    ¬(Certification.mk "Acme Institute" "Ä¢ Real Cert").provider = "" :=
  ⟨by decide,
   C5_theorem.1 "Acme Institute\n‚Ä¢ Real Cert"
     (Certification.mk "Acme Institute" "Ä¢ Real Cert") (by decide)⟩

/-- C9: parsing is deterministic — two parses of the same text produce
structurally identical records. -/
theorem C9_theorem (content : String) (r1 r2 : ResumeRecord)
    (h1 : parse content = some r1) (h2 : parse content = some r2) : r1 = r2 := by
  rw [h1] at h2
  exact Option.some.inj h2

/-- C9 witness: determinism instantiated on the one-line document "Jane Doe". -/
theorem C9_witness :
    ({ name := "Jane Doe" } : ResumeRecord) = { name := "Jane Doe" } :=
  C9_theorem "Jane Doe" { name := "Jane Doe" } { name := "Jane Doe" }
    (by decide) (by decide)

/-- C3 counterexample: in the SKILLS section "Languages:\nPython\nLanguages:"
the repeated category header clears the previously accumulated bucket — the
final skills mapping is {"Languages": []} and no longer contains "Python",
contradicting the claimed append-only invariant. -/
theorem C3_counterexample :
    parse_skills "Languages:\nPython\nLanguages:" = some [("Languages", [])] ∧
    ((dictLookup ((parse_skills "Languages:\nPython\nLanguages:").getD [])
      "Languages").getD []).contains "Python" = false := by
  constructor <;> decide

/-- C3 (amended): a category-header line (ending in ':') always executes
`skills[category] = []`, resetting that category's bucket to empty even when
the category already exists; buckets are append-only only across the lines
between header lines, where every bucket present at entry keeps its contents
as a prefix. -/
theorem C3_theorem :
    (∀ l rest cat skills, (pyStrip l == "") = false →
      pyEndsWith (pyStrip l) ":" = true →
      parseSkillsLoop (l :: rest) cat skills =
        parseSkillsLoop rest (pyStrip (pyDropLast1 (pyStrip l)))
          (dictAssign skills (pyStrip (pyDropLast1 (pyStrip l))) []) ∧
      dictLookup (dictAssign skills (pyStrip (pyDropLast1 (pyStrip l))) [])
        (pyStrip (pyDropLast1 (pyStrip l))) = some []) ∧
    (∀ ls cat skills d2 k w,
      (∀ l ∈ ls, pyEndsWith (pyStrip l) ":" = false) →
      parseSkillsLoop ls cat skills = some d2 →
      dictLookup skills k = some w →
      ∃ ext, dictLookup d2 k = some (w ++ ext)) := by
  constructor
  · intro l rest cat skills h1 h2
    constructor
    · conv_lhs => rw [parseSkillsLoop]
      simp only [h1, h2, Bool.false_eq_true, if_false, if_true]
    · rw [dictLookup_dictAssign]
      simp
  · intro ls cat skills d2 k w hnh h hw
    exact parseSkillsLoop_extend ls cat skills d2 k w hnh h hw

/-- C3 witness: the header-reset rule applied to a repeated "Languages:" header
over a bucket already holding "Python", and the between-headers extension
property applied to the skill line "Go". -/
theorem C3_witness :
    (parseSkillsLoop ["Languages:"] "General" [("Languages", ["Python"])] =
      parseSkillsLoop [] (pyStrip (pyDropLast1 (pyStrip "Languages:")))
        (dictAssign [("Languages", ["Python"])]
          (pyStrip (pyDropLast1 (pyStrip "Languages:"))) []) ∧
     dictLookup (dictAssign [("Languages", ["Python"])]
        (pyStrip (pyDropLast1 (pyStrip "Languages:"))) [])
        (pyStrip (pyDropLast1 (pyStrip "Languages:"))) = some []) ∧
    (∃ ext, dictLookup [("Languages", ["Python", "Go"])] "Languages" =
      some (["Python"] ++ ext)) :=
  ⟨C3_theorem.1 "Languages:" [] "General" [("Languages", ["Python"])]
      (by decide) (by decide),
   C3_theorem.2 ["Go"] "Languages" [("Languages", ["Python"])]
      [("Languages", ["Python", "Go"])] "Languages" ["Python"]
      (by intro l hl; rw [List.mem_singleton] at hl; subst hl; decide)
      (by decide) (by decide)⟩

/-- C8: `parse` is total over content — for every input string it returns a
record; the only modelled content-level failure (the guarded `skills[...]`
access) never fires. -/
theorem C8_theorem (content : String) : (parse content).isSome = true := by
  unfold parse
  exact applySections_isSome _ _

/-- C10: the parser never populates the "linkedin" key of the contact mapping:
the contact of every parsed record has `linkedin = none` (and only email,
phone, location can be populated). -/
theorem C10_theorem (content : String) (r : ResumeRecord)
    (h : parse content = some r) : r.contact.linkedin = none := by
  unfold parse at h
  have hc := applySections_contact _ _ _ h
  rw [hc]
  rfl

/-- C10 witness: the linkedin key is absent for the document "Jane Doe". -/
theorem C10_witness :
    ({ name := "Jane Doe" } : ResumeRecord).contact.linkedin = none :=
  C10_theorem "Jane Doe" { name := "Jane Doe" } (by decide)

/-- If the header scan returns nothing, no line matches the header. -/
theorem findHeaderAux_none (h : String) (ls : List String) :
    ∀ n, findHeaderAux h ls n = none →
    ∀ l ∈ ls, (pyUpper (pyStrip l) == h) = false := by
  induction ls with
  | nil =>
    intro n _ l hl
    simp at hl
  | cons a rest ih =>
    intro n hn l hl
    simp only [findHeaderAux] at hn
    cases hx : findHeaderAux h rest (n + 1) with
    | some j =>
      rw [hx] at hn
      simp at hn
    | none =>
      rw [hx] at hn
      rcases List.mem_cons.mp hl with rfl | hl2
      · by_cases hm : (pyUpper (pyStrip l) == h) = true
        · rw [if_pos hm] at hn
          simp at hn
        · simpa using hm
      · exact ih (n + 1) hx l hl2

/-- The header scan returns the index of the LAST matching line: the list
splits as `pre ++ l :: post` with `l` matching, nothing in `post` matching,
and the returned index is `offset + pre.length`. -/
theorem findHeaderAux_last (h : String) (ls : List String) :
    ∀ n i, findHeaderAux h ls n = some i →
    ∃ pre l post, ls = pre ++ l :: post ∧ i = n + pre.length ∧
      (pyUpper (pyStrip l) == h) = true ∧
      ∀ l2 ∈ post, (pyUpper (pyStrip l2) == h) = false := by
  induction ls with
  | nil =>
    intro n i hi
    simp [findHeaderAux] at hi
  | cons a rest ih =>
    intro n i hi
    simp only [findHeaderAux] at hi
    cases hx : findHeaderAux h rest (n + 1) with
    | some j =>
      rw [hx] at hi
      have hji : j = i := Option.some.inj hi
      subst hji
      obtain ⟨pre, l, post, hsplit, hlen, hmatch, hpost⟩ := ih (n + 1) j hx
      refine ⟨a :: pre, l, post, by rw [hsplit]; simp, ?_, hmatch, hpost⟩
      simp only [List.length_cons]
      omega
    | none =>
      rw [hx] at hi
      by_cases hm : (pyUpper (pyStrip a) == h) = true
      · rw [if_pos hm] at hi
        have hni : n = i := Option.some.inj hi
        subst hni
        exact ⟨[], a, rest, rfl, by simp, hm, findHeaderAux_none h rest (n + 1) hx⟩
      · rw [if_neg hm] at hi
        simp at hi

/-- C4: when a header literal occurs on several lines, the segmenter records
the index of the LAST occurrence (the scan overwrites on every match), and that
occurrence determines where the section starts; concretely, with EXPERIENCE on
lines 1 and 3 of a five-line document, the parsed experience comes only from
the lines after the second occurrence. -/
theorem C4_theorem :
    (∀ lines h i, findHeaderPos lines h = some i →
      ∃ pre l post, lines = pre ++ l :: post ∧ i = pre.length ∧
        (pyUpper (pyStrip l) == h) = true ∧
        ∀ l2 ∈ post, (pyUpper (pyStrip l2) == h) = false) ∧
    (parse "Name\nEXPERIENCE\nAlpha Co\nEXPERIENCE\nBeta Co").map
        ResumeRecord.experience =
      some [⟨"Beta Co", "", "", []⟩] := by
  constructor
  · intro lines h i hi
    obtain ⟨pre, l, post, hsplit, hlen, hmatch, hpost⟩ :=
      findHeaderAux_last h lines 0 i hi
    exact ⟨pre, l, post, hsplit, by omega, hmatch, hpost⟩
  · decide

/-- C4 witness: the last-occurrence rule applied to a three-line list in which
"EXPERIENCE" occurs at indices 0 and 2: the recorded index is 2. -/
theorem C4_witness :
    ∃ pre l post,
      (["EXPERIENCE", "Alpha Co", "EXPERIENCE"] : List String) = pre ++ l :: post ∧
      (2 : Nat) = pre.length ∧
      (pyUpper (pyStrip l) == "EXPERIENCE") = true ∧
      ∀ l2 ∈ post, (pyUpper (pyStrip l2) == "EXPERIENCE") = false :=
  C4_theorem.1 ["EXPERIENCE", "Alpha Co", "EXPERIENCE"] "EXPERIENCE" 2 (by decide)

theorem matchAt_le (items : List RItem) (s : List Char) (n : Nat)
    (h : matchAt items s = some n) : n ≤ s.length := by
  unfold matchAt at h
  cases hx : seqRests items s with
  | nil =>
    rw [hx] at h
    simp at h
  | cons r rs =>
    rw [hx] at h
    have := Option.some.inj h
    omega

/-- `re.search` reports the match at the leftmost start position that matches
at all: if it returns `m`, there is a scan position `k` such that no earlier
position matches, position `k` matches with length `m.length`, and `m` is the
corresponding slice of the input. -/
theorem reSearchAux_first (items : List RItem) :
    ∀ cs m, reSearchAux items cs = some m →
    ∃ k, (∀ j, j < k → matchAt items (cs.drop j) = none) ∧
      matchAt items (cs.drop k) = some m.length ∧
      m = (cs.drop k).take m.length := by
  intro cs
  induction cs with
  | nil =>
    intro m hm
    simp only [reSearchAux] at hm
    cases hx : matchAt items [] with
    | none =>
      rw [hx] at hm
      simp at hm
    | some n =>
      rw [hx] at hm
      have hmn := Option.some.inj hm
      have hn0 : n = 0 := by
        have := matchAt_le items [] n hx
        simpa using this
      refine ⟨0, fun j hj => absurd hj (Nat.not_lt_zero j), ?_, ?_⟩
      · rw [List.drop_nil, hx, ← hmn, hn0]
        simp
      · rw [← hmn, hn0]
        simp
  | cons c t ih =>
    intro m hm
    simp only [reSearchAux] at hm
    cases hx : matchAt items (c :: t) with
    | some n =>
      rw [hx] at hm
      have hmn := Option.some.inj hm
      have hlen : m.length = n := by
        rw [← hmn, List.length_take]
        exact min_eq_left (matchAt_le items (c :: t) n hx)
      refine ⟨0, fun j hj => absurd hj (Nat.not_lt_zero j), ?_, ?_⟩
      · rw [List.drop_zero, hx, hlen]
      · rw [List.drop_zero, hlen, ← hmn]
    | none =>
      rw [hx] at hm
      obtain ⟨k, hk1, hk2, hk3⟩ := ih m hm
      refine ⟨k + 1, ?_, ?_, ?_⟩
      · intro j hj
        cases j with
        | zero => simpa using hx
        | succ j2 =>
          rw [List.drop_succ_cons]
          exact hk1 j2 (Nat.lt_of_succ_lt_succ hj)
      · simpa using hk2
      · simpa using hk3

/-- The location scan returns the first line (stripped) whose entire content
matches the anchored location pattern, ignoring everything after it. -/
theorem extractLocation_first (pre : List String) :
    ∀ l post, locFullMatch (pyStrip l) = true →
    (∀ l2 ∈ pre, locFullMatch (pyStrip l2) = false) →
    extractLocation (pre ++ l :: post) = some (pyStrip l) := by
  induction pre with
  | nil =>
    intro l post hm _
    simp only [List.nil_append, extractLocation, hm, if_true]
  | cons a rest ih =>
    intro l post hm hpre
    have ha : locFullMatch (pyStrip a) = false := hpre a (List.mem_cons_self a rest)
    simp only [List.cons_append, extractLocation, ha, Bool.false_eq_true, if_false]
    exact ih l post hm (fun x hx => hpre x (List.mem_cons_of_mem a hx))

/-- C6: on the document "jane@x.com\n555-123-4567\nAustin, TX" contact
extraction yields exactly that email, phone and location; in general the
joined-block searches return the leftmost matching substring, and the location
scan stops on the first fully matching line. -/
theorem C6_theorem :
    (parse "jane@x.com\n555-123-4567\nAustin, TX").map ResumeRecord.contact =
      some { email := some "jane@x.com", phone := some "555-123-4567",
             location := some "Austin, TX", linkedin := none } ∧
    (∀ pre l post, locFullMatch (pyStrip l) = true →
      (∀ l2 ∈ pre, locFullMatch (pyStrip l2) = false) →
      extractLocation (pre ++ l :: post) = some (pyStrip l)) ∧
    (∀ items cs m, reSearchAux items cs = some m →
      ∃ k, (∀ j, j < k → matchAt items (cs.drop j) = none) ∧
        matchAt items (cs.drop k) = some m.length ∧
        m = (cs.drop k).take m.length) := by
  refine ⟨by decide, ?_, ?_⟩
  · intro pre l post hm hpre
    exact extractLocation_first pre l post hm hpre
  · intro items cs m hm
    exact reSearchAux_first items cs m hm

/-- C6 witness: the location first-match rule on ["jane@x.com", "Austin, TX"],
and the leftmost-substring rule for the email search on "x jane@x.com". -/
theorem C6_witness :
    extractLocation ["jane@x.com", "Austin, TX"] = some (pyStrip "Austin, TX") ∧
    ∃ k, (∀ j, j < k → matchAt emailItems (("x jane@x.com").data.drop j) = none) ∧
      matchAt emailItems (("x jane@x.com").data.drop k) =
        some ("jane@x.com").data.length ∧
      ("jane@x.com").data =
        (("x jane@x.com").data.drop k).take ("jane@x.com").data.length :=
  ⟨C6_theorem.2.1 ["jane@x.com"] "Austin, TX" [] (by decide)
      (by intro l2 hl2; rw [List.mem_singleton] at hl2; subst hl2; decide),
   C6_theorem.2.2 emailItems ("x jane@x.com").data ("jane@x.com").data (by decide)⟩

theorem applySummary_eq (s : List (String × String)) (r : ResumeRecord) :
    applySummary s r =
      { r with summary := match sectionsLookup s "SUMMARY" with
          | some x => x
          | none => r.summary } := by
  unfold applySummary
  cases sectionsLookup s "SUMMARY" <;> rfl

theorem applyExperience_eq (s : List (String × String)) (r : ResumeRecord) :
    applyExperience s r =
      { r with experience := match sectionsLookup s "EXPERIENCE" with
          | some x => parse_experience x
          | none => r.experience } := by
  unfold applyExperience
  cases sectionsLookup s "EXPERIENCE" <;> rfl

theorem applyEducation_eq (s : List (String × String)) (r : ResumeRecord) :
    applyEducation s r =
      { r with education := match sectionsLookup s "EDUCATION" with
          | some x => parse_education x
          | none => r.education } := by
  unfold applyEducation
  cases sectionsLookup s "EDUCATION" <;> rfl

theorem applyCertifications_eq (s : List (String × String)) (r : ResumeRecord) :
    applyCertifications s r =
      { r with certifications := match sectionsLookup s "CERTIFICATIONS" with
          | some x => parse_certifications x
          | none => r.certifications } := by
  unfold applyCertifications
  cases sectionsLookup s "CERTIFICATIONS" <;> rfl

theorem applyAwards_eq (s : List (String × String)) (r : ResumeRecord) :
    applyAwards s r =
      { r with honors_awards := match sectionsLookup s "HONORS AND AWARDS" with
          | some x => parse_honors_awards x
          | none => r.honors_awards } := by
  unfold applyAwards
  cases sectionsLookup s "HONORS AND AWARDS" <;> rfl

/-- Each field of the assembled record depends only on its own section lookup;
fields whose section is absent keep the value they had in `r`. -/
theorem applySections_fields (s : List (String × String)) (r r2 : ResumeRecord)
    (h : applySections s r = some r2) :
    r2.name = r.name ∧ r2.contact = r.contact ∧
    r2.summary = (match sectionsLookup s "SUMMARY" with
      | some x => x
      | none => r.summary) ∧
    r2.experience = (match sectionsLookup s "EXPERIENCE" with
      | some x => parse_experience x
      | none => r.experience) ∧
    r2.education = (match sectionsLookup s "EDUCATION" with
      | some x => parse_education x
      | none => r.education) ∧
    r2.certifications = (match sectionsLookup s "CERTIFICATIONS" with
      | some x => parse_certifications x
      | none => r.certifications) ∧
    r2.honors_awards = (match sectionsLookup s "HONORS AND AWARDS" with
      | some x => parse_honors_awards x
      | none => r.honors_awards) ∧
    r2.skills = (match sectionsLookup s "SKILLS" with
      | some x => (parse_skills x).getD r.skills
      | none => r.skills) := by
  unfold applySections at h
  cases hq : sectionsLookup s "SKILLS" with
  | none =>
    rw [hq] at h
    dsimp only [] at h
    have h3 := Option.some.inj h
    subst h3
    simp [applyAwards_eq, applyCertifications_eq, applyEducation_eq,
      applyExperience_eq, applySummary_eq]
  | some str =>
    rw [hq] at h
    dsimp only [] at h
    cases hp : parse_skills str with
    | none =>
      rw [hp] at h
      simp at h
    | some sk =>
      rw [hp] at h
      dsimp only [] at h
      have h3 := Option.some.inj h
      subst h3
      simp [applyAwards_eq, applyCertifications_eq, applyEducation_eq,
        applyExperience_eq, applySummary_eq, hp]

theorem mem_insertByPos (x y : Nat × String) (l : List (Nat × String)) :
    y ∈ insertByPos x l ↔ y = x ∨ y ∈ l := by
  induction l with
  | nil => simp [insertByPos]
  | cons a rest ih =>
    simp only [insertByPos]
    by_cases hc : x.1 ≤ a.1
    · rw [if_pos hc]
      simp
    · rw [if_neg hc]
      simp only [List.mem_cons, ih]
      tauto

theorem mem_sortByPos (y : Nat × String) (l : List (Nat × String)) :
    y ∈ sortByPos l ↔ y ∈ l := by
  induction l with
  | nil => simp [sortByPos]
  | cons a rest ih =>
    show y ∈ insertByPos a (sortByPos rest) ↔ y ∈ a :: rest
    rw [mem_insertByPos, ih, List.mem_cons]

theorem sectionsLookup_spansFrom_none (lines : List String)
    (plist : List (Nat × String)) (h : String)
    (hh : ∀ p ∈ plist, ¬p.2 = h) :
    sectionsLookup (spansFrom lines plist) h = none := by
  induction plist with
  | nil => rfl
  | cons x rest ih =>
    obtain ⟨pos, hd⟩ := x
    simp only [spansFrom, sectionsLookup]
    rw [if_neg]
    · exact ih (fun p hp => hh p (List.mem_cons_of_mem _ hp))
    · have := hh (pos, hd) (List.mem_cons_self _ _)
      simpa [beq_iff_eq] using this

/-- A header never found in the document produces no section entry. -/
theorem sectionsLookup_absent (content : String) (h : String)
    (hn : findHeaderPos (pySplitLines content) h = none) :
    sectionsLookup (extract_all_sections content) h = none := by
  unfold extract_all_sections
  apply sectionsLookup_spansFrom_none
  intro p hp
  rw [mem_sortByPos] at hp
  simp only [List.mem_filterMap] at hp
  obtain ⟨h2, hmem, hmap⟩ := hp
  cases hq : findHeaderPos (pySplitLines content) h2 with
  | none =>
    rw [hq] at hmap
    simp at hmap
  | some pos =>
    rw [hq] at hmap
    simp only [Option.map_some'] at hmap
    have hp2 : p = (pos, h2) := (Option.some.inj hmap).symm
    subst hp2
    intro habs
    simp only at habs
    subst habs
    rw [hq] at hn
    simp at hn

theorem pyJoinLines_single (s : String) : pyJoinLines [s] = s := by
  unfold pyJoinLines
  simp [List.intercalate]

/-- C7: a single-line document whose line is a non-blank name (no email, phone
or location shape, and not a section header) parses to a record with that name
(trimmed) and every other field at its default: empty contact, empty summary,
and empty experience, education, skills, certifications and honors lists.
More generally, for every document and every section header absent from it,
the corresponding record field keeps its default value. -/
theorem C7_theorem :
    (∀ l, pySplitLines l = [l] → (pyStrip l == "") = false →
      reSearch emailItems l = none → reSearch phoneItems l = none →
      locFullMatch (pyStrip l) = false →
      (∀ h ∈ headerNames, (pyUpper (pyStrip l) == h) = false) →
      parse l = some { name := pyStrip l }) ∧
    (∀ content r, parse content = some r →
      (findHeaderPos (pySplitLines content) "SUMMARY" = none → r.summary = "") ∧
      (findHeaderPos (pySplitLines content) "EXPERIENCE" = none → r.experience = []) ∧
      (findHeaderPos (pySplitLines content) "EDUCATION" = none → r.education = []) ∧
      (findHeaderPos (pySplitLines content) "CERTIFICATIONS" = none →
        r.certifications = []) ∧
      (findHeaderPos (pySplitLines content) "SKILLS" = none → r.skills = []) ∧
      (findHeaderPos (pySplitLines content) "HONORS AND AWARDS" = none →
        r.honors_awards = [])) := by
  constructor
  · intro l hsplit hne hem hph hloc hhead
    have hname : parseName [l] = pyStrip l := by
      simp [parseName, hne]
    have hcontact : extract_contact_info [l] = ({} : Contact) := by
      unfold extract_contact_info
      rw [pyJoinLines_single]
      show Contact.mk (reSearch emailItems l) (reSearch phoneItems l)
        (extractLocation [l]) none = {}
      rw [hem, hph]
      simp [extractLocation, hloc]
    have hsections : extract_all_sections l = [] := by
      unfold extract_all_sections
      rw [hsplit]
      have hfm : headerNames.filterMap
          (fun h => (findHeaderPos [l] h).map (fun p => (p, h))) = [] := by
        rw [List.filterMap_eq_nil_iff]
        intro h hh
        have hnone : findHeaderPos [l] h = none := by
          simp [findHeaderPos, findHeaderAux, hhead h hh]
        rw [hnone]
        rfl
      show spansFrom [l] (sortByPos (headerNames.filterMap
        (fun h => (findHeaderPos [l] h).map (fun p => (p, h))))) = []
      rw [hfm]
      rfl
    show applySections (extract_all_sections l)
        { name := parseName (pySplitLines l),
          contact := extract_contact_info ((pySplitLines l).take 10) } =
      some { name := pyStrip l }
    rw [hsections, hsplit]
    have htake : ([l] : List String).take 10 = [l] := rfl
    rw [htake, hname, hcontact]
    rfl
  · intro content r h
    unfold parse at h
    have hf := applySections_fields _ _ _ h
    refine ⟨?_, ?_, ?_, ?_, ?_, ?_⟩
    · intro hnone
      have ha := sectionsLookup_absent content "SUMMARY" hnone
      have := hf.2.2.1
      rw [ha] at this
      exact this
    · intro hnone
      have ha := sectionsLookup_absent content "EXPERIENCE" hnone
      have := hf.2.2.2.1
      rw [ha] at this
      exact this
    · intro hnone
      have ha := sectionsLookup_absent content "EDUCATION" hnone
      have := hf.2.2.2.2.1
      rw [ha] at this
      exact this
    · intro hnone
      have ha := sectionsLookup_absent content "CERTIFICATIONS" hnone
      have := hf.2.2.2.2.2.1
      rw [ha] at this
      exact this
    · intro hnone
      have ha := sectionsLookup_absent content "SKILLS" hnone
      have := hf.2.2.2.2.2.2.2
      rw [ha] at this
      exact this
    · intro hnone
      have ha := sectionsLookup_absent content "HONORS AND AWARDS" hnone
      have := hf.2.2.2.2.2.2.1
      rw [ha] at this
      exact this

/-- C7 witness: the name-only rule applied to the one-line document "Jane Doe". -/
theorem C7_witness :
    parse "Jane Doe" = some { name := pyStrip "Jane Doe" } :=
  C7_theorem.1 "Jane Doe" (by decide) (by decide) (by decide) (by decide)
    (by decide) (by intro h hh; fin_cases hh <;> decide)
